import Mathlib

/-!
# Verification of `simple-file-cache`

A shallow embedding of `src/simple_file_cache.rs`: a content-addressed file
cache that stores byte payloads under paths derived from the SHA-256 digest
of a key's textual representation.

The embedding models:
* SHA-256 over byte lists (32-bit words as `Nat` with explicit `% 2^32`),
* lowercase hex encoding (`enc::hex::HexEncoder::LOWER`),
* UTF-8 encoding of strings (Rust's `str::as_bytes`),
* the path collaborators of the `file_storage` crate (folder append and
  file coercion), abstracted as a `PathOps` record per the external contract,
* the filesystem as a map from path strings to optional byte contents, with
  I/O-failure oracles for delete/write/read.

Rust `unwrap` panics are modelled by `Option`: a `none` result of
`file_path`/`put`/`get` stands for a panic of the corresponding Rust call.
-/

/-! ## 32-bit word arithmetic on `Nat` -/

/-- Truncate to a 32-bit word. -/
def w32 (x : Nat) : Nat := x % 4294967296

/-- Rotate a 32-bit word right by `n` positions. -/
def rotr (n x : Nat) : Nat := w32 ((x >>> n) ||| (x <<< (32 - n)))

/-- Bitwise complement of a 32-bit word. -/
def compl32 (x : Nat) : Nat := x ^^^ 4294967295

/-! ## SHA-256 (`sha2::Sha256`) -/

/-- SHA-256 `Ch` function. -/
def ch (x y z : Nat) : Nat := (x &&& y) ^^^ (compl32 x &&& z)

/-- SHA-256 `Maj` function. -/
def maj (x y z : Nat) : Nat := (x &&& y) ^^^ (x &&& z) ^^^ (y &&& z)

/-- SHA-256 `Σ₀`. -/
def bigS0 (x : Nat) : Nat := rotr 2 x ^^^ rotr 13 x ^^^ rotr 22 x

/-- SHA-256 `Σ₁`. -/
def bigS1 (x : Nat) : Nat := rotr 6 x ^^^ rotr 11 x ^^^ rotr 25 x

/-- SHA-256 `σ₀`. -/
def smallS0 (x : Nat) : Nat := rotr 7 x ^^^ rotr 18 x ^^^ (x >>> 3)

/-- SHA-256 `σ₁`. -/
def smallS1 (x : Nat) : Nat := rotr 17 x ^^^ rotr 19 x ^^^ (x >>> 10)

/-- The 64 SHA-256 round constants. -/
def sha256K : List Nat :=
  [1116352408, 1899447441, 3049323471, 3921009573, 961987163, 1508970993,
   2453635748, 2870763221, 3624381080, 310598401, 607225278, 1426881987,
   1925078388, 2162078206, 2614888103, 3248222580, 3835390401, 4022224774,
   264347078, 604807628, 770255983, 1249150122, 1555081692, 1996064986,
   2554220882, 2821834349, 2952996808, 3210313671, 3336571891, 3584528711,
   113926993, 338241895, 666307205, 773529912, 1294757372, 1396182291,
   1695183700, 1986661051, 2177026350, 2456956037, 2730485921, 2820302411,
   3259730800, 3345764771, 3516065817, 3600352804, 4094571909, 275423344,
   430227734, 506948616, 659060556, 883997877, 958139571, 1322822218,
   1537002063, 1747873779, 1955562222, 2024104815, 2227730452, 2361852424,
   2428436474, 2756734187, 3204031479, 3329325298]

/-- The SHA-256 initial state. -/
def sha256H0 : List Nat :=
  [1779033703, 3144134277, 1013904242, 2773480762,
   1359893119, 2600822924, 528734635, 1541459225]

/-- The `n` big-endian bytes of a value. -/
def toBytesBE : Nat → Nat → List Nat
  | 0, _ => []
  | n + 1, v => (v >>> (8 * n)) % 256 :: toBytesBE n v

/-- Merkle–Damgård padding: append `0x80`, zero bytes up to 56 mod 64, and
the 64-bit big-endian bit length. -/
def padMessage (msg : List Nat) : List Nat :=
  msg ++ 128 :: List.replicate ((119 - msg.length % 64) % 64) 0
      ++ toBytesBE 8 (8 * msg.length)

/-- Split a byte list into 64-byte blocks (fuel-driven so it reduces). -/
def chunks64Aux : Nat → List Nat → List (List Nat)
  | _, [] => []
  | 0, _ => []
  | n + 1, l => l.take 64 :: chunks64Aux n (l.drop 64)

/-- Split a byte list into 64-byte blocks. -/
def chunks64 (l : List Nat) : List (List Nat) := chunks64Aux l.length l

/-- The 16 initial 32-bit message-schedule words of a 64-byte block
(big-endian). -/
def wordsOf (block : List Nat) : List Nat :=
  (List.range 16).map fun i =>
    block.getD (4 * i) 0 <<< 24 ||| block.getD (4 * i + 1) 0 <<< 16 |||
      block.getD (4 * i + 2) 0 <<< 8 ||| block.getD (4 * i + 3) 0

/-- Extend the message schedule by `n` more words. -/
def extendAux : Nat → List Nat → List Nat
  | 0, ws => ws
  | n + 1, ws =>
    let i := ws.length
    let nw := (smallS1 (ws.getD (i - 2) 0) + ws.getD (i - 7) 0 +
               smallS0 (ws.getD (i - 15) 0) + ws.getD (i - 16) 0) % 4294967296
    extendAux n (ws ++ [nw])

/-- The SHA-256 compression rounds, consuming paired round constants and
schedule words; the state is the list `[a, b, c, d, e, f, g, h]`. -/
def rounds : List (Nat × Nat) → List Nat → List Nat
  | [], st => st
  | (k, w) :: rest, st =>
    let a := st.getD 0 0
    let b := st.getD 1 0
    let c := st.getD 2 0
    let d := st.getD 3 0
    let e := st.getD 4 0
    let f := st.getD 5 0
    let g := st.getD 6 0
    let h := st.getD 7 0
    let t1 := (h + bigS1 e + ch e f g + k + w) % 4294967296
    let t2 := (bigS0 a + maj a b c) % 4294967296
    rounds rest
      [(t1 + t2) % 4294967296, a, b, c, (d + t1) % 4294967296, e, f, g]

/-- Compress one 64-byte block into the running state. -/
def processBlock (st : List Nat) (block : List Nat) : List Nat :=
  let ws := extendAux 48 (wordsOf block)
  let st2 := rounds (sha256K.zip ws) st
  (st.zip st2).map fun p => (p.1 + p.2) % 4294967296

/-- SHA-256 of a byte list, as its 32 digest bytes. -/
def sha256 (msg : List Nat) : List Nat :=
  ((chunks64 (padMessage msg)).foldl processBlock sha256H0).flatMap (toBytesBE 4)

/-! ## Lowercase hex encoding (`enc::hex::HexEncoder::LOWER`) -/

/-- The lowercase hex digit for a nibble. -/
def hexDigit (n : Nat) : Char :=
  if n < 10 then Char.ofNat (48 + n) else Char.ofNat (87 + n)

/-- The two lowercase hex digits of a byte. -/
def hexByte (b : Nat) : List Char := [hexDigit (b / 16), hexDigit (b % 16)]

/-- Lowercase hex encoding of a byte list. -/
def hexLower (bs : List Nat) : String := String.mk (bs.flatMap hexByte)

/-! ## UTF-8 (Rust `str::as_bytes` on the key's `Display` string) -/

/-- UTF-8 encoding of a single scalar value. -/
def utf8Char (c : Char) : List Nat :=
  let n := c.toNat
  if n < 0x80 then [n]
  else if n < 0x800 then [0xC0 ||| (n >>> 6), 0x80 ||| (n &&& 0x3F)]
  else if n < 0x10000 then
    [0xE0 ||| (n >>> 12), 0x80 ||| ((n >>> 6) &&& 0x3F), 0x80 ||| (n &&& 0x3F)]
  else
    [0xF0 ||| (n >>> 18), 0x80 ||| ((n >>> 12) &&& 0x3F),
     0x80 ||| ((n >>> 6) &&& 0x3F), 0x80 ||| (n &&& 0x3F)]

/-- UTF-8 encoding of a string. -/
def utf8Bytes (s : String) : List Nat := s.data.flatMap utf8Char

/-! ## Path collaborators (`file_storage::{FolderPath, Path, FilePath}`)

The `file_storage` crate is an external collaborator; its operations are
abstracted as a record, with a standard instance following its contract:
hex encoding emits the lowercase hex string, path append is string
concatenation onto the folder path (which ends with `/`), and coercing a
composed path to a file path fails exactly when the path is not file-shaped
(empty or ending in the folder separator `/`). -/

/-- The fallible external operations used by `file_path`:
`HexEncoder::LOWER.encode_as_string` and `Path::to_file`. A `none` result
is the `Err`/`None` the Rust code `unwrap`s. -/
structure PathOps where
  encodeAsString : List Nat → Option String
  toFile : String → Option String

/-- The standard collaborator behaviour: hex encoding always succeeds with
the lowercase hex string; `toFile` succeeds exactly on file-shaped paths
(nonempty, not ending in `/`). -/
def stdPathOps : PathOps where
  encodeAsString bs := some (hexLower bs)
  toFile p :=
    match p.data.getLast? with
    | some c => if c = '/' then none else some p
    | none => none

/-- A `SimpleFileCache` holds only the root cache folder path (a `FolderPath`,
conventionally ending in `/`). -/
structure SimpleFileCache where
  cache_folder : String

/-- `SimpleFileCache::file_path`: hash the key's display string, hex-encode,
split 4/60 into `"<hi>/<lo>.cache"`, append to the root folder and coerce to
a file path. A `none` result models a panic of one of the two `unwrap`s. -/
def SimpleFileCache.file_path (po : PathOps) (c : SimpleFileCache) (key : String) :
    Option String := do
  let hash ← po.encodeAsString (sha256 (utf8Bytes key))
  let extension := hash.take 4 ++ "/" ++ hash.drop 4 ++ ".cache"
  po.toFile (c.cache_folder ++ extension)

/-- The pure derived path: root, the first 4 hex chars, `/`, the remaining
hex chars, `.cache`. -/
def filePathStr (root key : String) : String :=
  let hash := hexLower (sha256 (utf8Bytes key))
  root ++ (hash.take 4 ++ "/" ++ hash.drop 4 ++ ".cache")

/-! ## The filesystem collaborator -/

/-- A filesystem: each path string holds at most one byte payload. -/
def FS : Type := String → Option (List Nat)

/-- The empty filesystem. -/
def emptyFs : FS := fun _ => none

/-- The error channel of `file_storage::Error`, abstracted: an I/O failure
tagged with the path it occurred on. -/
inductive FsError : Type where
  | ioError : String → FsError
deriving DecidableEq

/-- Oracles saying which paths fail for delete / write / read, modelling
nondeterministic I/O failure of the filesystem collaborator. -/
structure IoOps where
  deleteFails : String → Bool
  writeFails : String → Bool
  readFails : String → Bool

/-- The collaborator where no I/O operation fails. -/
def noFailIo : IoOps where
  deleteFails _ := false
  writeFails _ := false
  readFails _ := false

/-- `FilePath::delete_if_exists`: absence of the file is not an error; on
success the path maps to nothing. Returns the result and the filesystem
after the call. -/
def delete_if_exists (io : IoOps) (fs : FS) (p : String) :
    Except FsError Unit × FS :=
  if io.deleteFails p then (.error (.ioError p), fs)
  else (.ok (), fun q => if q = p then none else fs q)

/-- `FilePath::write_data`: create or overwrite the file with the bytes. -/
def write_data (io : IoOps) (fs : FS) (p : String) (d : List Nat) :
    Except FsError Unit × FS :=
  if io.writeFails p then (.error (.ioError p), fs)
  else (.ok (), fun q => if q = p then some d else fs q)

/-- `FilePath::read_as_vec_if_exists`: the file's bytes, or `none` when the
file is absent (not an error). The filesystem is returned unchanged in every
case. -/
def read_as_vec_if_exists (io : IoOps) (fs : FS) (p : String) :
    Except FsError (Option (List Nat)) × FS :=
  if io.readFails p then (.error (.ioError p), fs) else (.ok (fs p), fs)

/-! ## `put` and `get` -/

/-- `SimpleFileCache::put`: derive the path, delete any pre-existing file
there, then write the data; the `?` operator stops at the first I/O error.
The outer `none` models a panic inside `file_path`. -/
def SimpleFileCache.put (po : PathOps) (io : IoOps) (c : SimpleFileCache) (fs : FS)
    (key : String) (data : List Nat) : Option (Except FsError Unit × FS) :=
  (SimpleFileCache.file_path po c key).map fun file =>
    match delete_if_exists io fs file with
    | (.error e, fs1) => (.error e, fs1)
    | (.ok (), fs1) => write_data io fs1 file data

/-- `SimpleFileCache::get`: derive the path and read the file if it exists.
The outer `none` models a panic inside `file_path`. -/
def SimpleFileCache.get (po : PathOps) (io : IoOps) (c : SimpleFileCache) (fs : FS)
    (key : String) : Option (Except FsError (Option (List Nat)) × FS) :=
  (SimpleFileCache.file_path po c key).map fun file => read_as_vec_if_exists io fs file

/-- A collaborator whose hex encoder fails, the "internal/unreachable"
failure the source `unwrap`s. -/
def badPathOps : PathOps where
  encodeAsString _ := none
  toFile _ := none

/-! ## Operation sequences (for root immutability) -/

/-- One public cache operation, as invoked by a caller. -/
inductive CacheOp where
  | opFilePath : String → CacheOp
  | opPut : String → List Nat → CacheOp
  | opGet : String → CacheOp

/-- Run one operation on the world (the cache value and the filesystem):
every operation takes the cache by shared reference, so only the
filesystem component can change; a panicking operation changes nothing. -/
def applyOp (po : PathOps) (io : IoOps) (w : SimpleFileCache × FS) :
    CacheOp → SimpleFileCache × FS
  | CacheOp.opFilePath _ => w
  | CacheOp.opPut k d =>
    match SimpleFileCache.put po io w.1 w.2 k d with
    | some (_, fs2) => (w.1, fs2)
    | none => w
  | CacheOp.opGet k =>
    match SimpleFileCache.get po io w.1 w.2 k with
    | some (_, fs2) => (w.1, fs2)
    | none => w

/-- Run a sequence of operations on the world. -/
def runOps (po : PathOps) (io : IoOps) (w : SimpleFileCache × FS)
    (ops : List CacheOp) : SimpleFileCache × FS :=
  ops.foldl (applyOp po io) w

/-! ## Concrete worlds used in the witnesses -/

/-- The derived path of key `"key"` under root `"/cache/folder/"`. -/
def keyPath : String := filePathStr "/cache/folder/" "key"

/-- A filesystem holding `[1]` exactly at `keyPath`. -/
def fsA : FS := fun q => if q = keyPath then some [1] else emptyFs q

/-- `fsA` after storing `[2]` at `keyPath`. -/
def fsB : FS := fun q => if q = keyPath then some [2] else fsA q

/-- A filesystem holding `[7]` exactly at key `"b"`'s derived path. -/
def fsOther : FS :=
  fun q => if q = filePathStr "/cache/folder/" "b" then some [7] else emptyFs q

/-! ## The derived path under the standard collaborators -/

/-- A path built by appending something ending in `".cache"` ends in `'e'`. -/
theorem getLast?_append_cache (s t : String) :
    (s ++ (t ++ ".cache")).data.getLast? = some 'e' := by
  rw [String.data_append, String.data_append,
    List.getLast?_append_of_ne_nil _ (by simp),
    List.getLast?_append_of_ne_nil _ (by decide)]
  decide

/-- `file_path` unfolded: hex-encode the digest, then coerce the composed
path, propagating the panic of either `unwrap`. -/
theorem file_path_eq (po : PathOps) (c : SimpleFileCache) (k : String) :
    SimpleFileCache.file_path po c k = (po.encodeAsString (sha256 (utf8Bytes k))).bind
      (fun hash =>
        po.toFile (c.cache_folder ++
          (hash.take 4 ++ "/" ++ hash.drop 4 ++ ".cache"))) := rfl

/-- Under the standard collaborators, `file_path` never panics and returns
exactly the pure derived path. -/
theorem file_path_std (c : SimpleFileCache) (k : String) :
    SimpleFileCache.file_path stdPathOps c k = some (filePathStr c.cache_folder k) := by
  rw [file_path_eq]
  simp only [stdPathOps, Option.some_bind]
  rw [getLast?_append_cache c.cache_folder
    ((hexLower (sha256 (utf8Bytes k))).take 4 ++ "/" ++
      (hexLower (sha256 (utf8Bytes k))).drop 4)]
  simp [filePathStr]

/-! ## Digest and hex lengths -/

/-- `toBytesBE n v` has `n` bytes. -/
theorem toBytesBE_length (n v : Nat) : (toBytesBE n v).length = n := by
  induction n generalizing v with
  | zero => rfl
  | succ m ih => simp [toBytesBE, ih]

/-- The compression rounds preserve the 8-word state shape. -/
theorem rounds_length (ks : List (Nat × Nat)) (st : List Nat)
    (h : st.length = 8) : (rounds ks st).length = 8 := by
  induction ks generalizing st with
  | nil => exact h
  | cons kw rest ih => cases kw; exact ih _ rfl

/-- Compressing a block preserves the 8-word state shape. -/
theorem processBlock_length (st b : List Nat) (h : st.length = 8) :
    (processBlock st b).length = 8 := by
  simp [processBlock, List.length_zip, h,
    rounds_length _ st h]

/-- Folding blocks preserves the 8-word state shape. -/
theorem foldl_processBlock_length (blocks : List (List Nat)) (st : List Nat)
    (h : st.length = 8) : (blocks.foldl processBlock st).length = 8 := by
  induction blocks generalizing st with
  | nil => exact h
  | cons b rest ih => exact ih _ (processBlock_length _ _ h)

/-- Serializing a word list gives 4 bytes per word. -/
theorem flatMap_toBytesBE_length (l : List Nat) :
    (l.flatMap (toBytesBE 4)).length = 4 * l.length := by
  induction l with
  | nil => rfl
  | cons x t ih => simp [List.flatMap_cons, toBytesBE_length, ih]; ring

/-- A SHA-256 digest is 32 bytes. -/
theorem sha256_length (m : List Nat) : (sha256 m).length = 32 := by
  have h8 : ((chunks64 (padMessage m)).foldl processBlock sha256H0).length = 8 :=
    foldl_processBlock_length _ _ rfl
  rw [sha256, flatMap_toBytesBE_length, h8]

/-- Hex encoding gives 2 characters per byte. -/
theorem hexLower_length (bs : List Nat) : (hexLower bs).length = 2 * bs.length := by
  simp only [hexLower, String.length_mk]
  induction bs with
  | nil => rfl
  | cons b t ih => simp [List.flatMap_cons, hexByte, ih]; ring

/-- The hex digest of a key is 64 characters. -/
theorem hexDigest_length (k : String) :
    (hexLower (sha256 (utf8Bytes k))).length = 64 := by
  rw [hexLower_length, sha256_length]

/-! ## Injectivity of the derivation pipeline -/

/-- `s.data.length` is the string length. -/
theorem data_length (s : String) : s.data.length = s.length := rfl

/-- Distinct nibbles get distinct lowercase hex digits. -/
theorem hexDigit_inj : ∀ a < 16, ∀ b < 16, hexDigit a = hexDigit b → a = b := by
  decide

/-- Big-endian bytes are bytes. -/
theorem toBytesBE_mem_lt (n v : Nat) : ∀ b ∈ toBytesBE n v, b < 256 := by
  induction n generalizing v with
  | zero => intro b hb; simp [toBytesBE] at hb
  | succ m ih =>
    intro b hb
    simp only [toBytesBE, List.mem_cons] at hb
    rcases hb with hb | hb
    · omega
    · exact ih v b hb

/-- SHA-256 digest entries are bytes. -/
theorem sha256_mem_lt (m : List Nat) : ∀ b ∈ sha256 m, b < 256 := by
  intro b hb
  rw [sha256, List.mem_flatMap] at hb
  obtain ⟨w, _, hw⟩ := hb
  exact toBytesBE_mem_lt 4 w b hw

/-- Hex-encoding a list of bytes is injective (on the concatenated digits). -/
theorem flatMap_hexByte_inj : ∀ l1 l2 : List Nat, (∀ b ∈ l1, b < 256) →
    (∀ b ∈ l2, b < 256) → l1.flatMap hexByte = l2.flatMap hexByte → l1 = l2 := by
  intro l1
  induction l1 with
  | nil =>
    intro l2 _ _ hd
    cases l2 with
    | nil => rfl
    | cons y t => simp [hexByte] at hd
  | cons x t1 ih =>
    intro l2 hb1 hb2 hd
    cases l2 with
    | nil => simp [hexByte] at hd
    | cons y t2 =>
      simp only [List.flatMap_cons, hexByte, List.cons_append, List.nil_append,
        List.cons.injEq] at hd
      obtain ⟨e1, e2, e3⟩ := hd
      have hx := hb1 x (List.mem_cons_self _ _)
      have hy := hb2 y (List.mem_cons_self _ _)
      have hxy : x = y := by
        have d1 := hexDigit_inj (x / 16) (by omega) (y / 16) (by omega) e1
        have d2 := hexDigit_inj (x % 16) (by omega) (y % 16) (by omega) e2
        omega
      subst hxy
      rw [ih t2 (fun b hb => hb1 b (List.mem_cons_of_mem _ hb))
        (fun b hb => hb2 b (List.mem_cons_of_mem _ hb)) e3]

/-- `hexLower` is injective on byte lists. -/
theorem hexLower_inj (l1 l2 : List Nat) (h1 : ∀ b ∈ l1, b < 256)
    (h2 : ∀ b ∈ l2, b < 256) (h : hexLower l1 = hexLower l2) : l1 = l2 := by
  apply flatMap_hexByte_inj l1 l2 h1 h2
  have := congrArg String.data h
  simpa [hexLower] using this

/-- Distinct digests give distinct derived paths under the same root. -/
theorem filePathStr_inj (root k1 k2 : String)
    (h : sha256 (utf8Bytes k1) ≠ sha256 (utf8Bytes k2)) :
    filePathStr root k1 ≠ filePathStr root k2 := by
  intro heq
  apply h
  have hd := congrArg String.data heq
  simp only [filePathStr] at hd
  simp only [String.data_append] at hd
  simp only [String.data_take, String.data_drop, List.append_assoc] at hd
  have hd2 := List.append_cancel_left hd
  have hlen : (List.take 4 (hexLower (sha256 (utf8Bytes k1))).data).length =
      (List.take 4 (hexLower (sha256 (utf8Bytes k2))).data).length := by
    simp only [List.length_take, data_length, hexDigest_length]
  obtain ⟨htake, hrest⟩ := List.append_inj hd2 hlen
  have hrest2 := List.append_cancel_left hrest
  have hdrop := List.append_cancel_right hrest2
  have hdata : (hexLower (sha256 (utf8Bytes k1))).data =
      (hexLower (sha256 (utf8Bytes k2))).data := by
    rw [← List.take_append_drop 4 (hexLower (sha256 (utf8Bytes k1))).data,
      ← List.take_append_drop 4 (hexLower (sha256 (utf8Bytes k2))).data,
      htake, hdrop]
  exact hexLower_inj _ _ (sha256_mem_lt _) (sha256_mem_lt _) (String.ext hdata)

/-! ## Further collaborators and helper lemmas -/

/-- Reading never changes the filesystem. -/
theorem read_snd (io : IoOps) (fs : FS) (p : String) :
    (read_as_vec_if_exists io fs p).2 = fs := by
  simp only [read_as_vec_if_exists]
  split <;> rfl

/-- Full case analysis of `put` under the standard path collaborators:
delete first (failure stops everything, filesystem untouched), then write
(failure leaves the deletion applied), success stores the data at the
derived path and touches no other path. -/
theorem put_eq_cases (io : IoOps) (c : SimpleFileCache) (fs : FS)
    (k : String) (d : List Nat) :
    SimpleFileCache.put stdPathOps io c fs k d =
      some (if io.deleteFails (filePathStr c.cache_folder k) then
          (Except.error (FsError.ioError (filePathStr c.cache_folder k)), fs)
        else if io.writeFails (filePathStr c.cache_folder k) then
          (Except.error (FsError.ioError (filePathStr c.cache_folder k)),
            fun q => if q = filePathStr c.cache_folder k then none else fs q)
        else (Except.ok (),
            fun q => if q = filePathStr c.cache_folder k then some d
              else fs q)) := by
  simp only [SimpleFileCache.put, file_path_std, Option.map_some']
  refine congrArg some ?_
  cases hdel : io.deleteFails (filePathStr c.cache_folder k) with
  | true => simp [hdel, delete_if_exists, write_data]
  | false =>
    cases hw : io.writeFails (filePathStr c.cache_folder k) with
    | true => simp [hdel, hw, delete_if_exists, write_data]
    | false =>
      have hfun : (fun q => if q = filePathStr c.cache_folder k then some d
          else if q = filePathStr c.cache_folder k then none else fs q) =
          (fun q => if q = filePathStr c.cache_folder k then some d
            else fs q) := by
        funext q
        by_cases hq : q = filePathStr c.cache_folder k <;> simp [hq]
      simp [hdel, hw, delete_if_exists, write_data, hfun]

/-- A successful `put` stores exactly the data at the derived path and
leaves every other path unchanged. -/
theorem put_ok_update (io : IoOps) (c : SimpleFileCache) (fs fs2 : FS)
    (k : String) (d : List Nat)
    (hput : SimpleFileCache.put stdPathOps io c fs k d = some (Except.ok (), fs2)) :
    fs2 (filePathStr c.cache_folder k) = some d ∧
    ∀ q, q ≠ filePathStr c.cache_folder k → fs2 q = fs q := by
  rw [put_eq_cases] at hput
  cases hdel : io.deleteFails (filePathStr c.cache_folder k) with
  | true => simp [hdel] at hput
  | false =>
    cases hw : io.writeFails (filePathStr c.cache_folder k) with
    | true => simp [hdel, hw] at hput
    | false =>
      simp only [hdel, hw, Bool.false_eq_true, if_false, Option.some.injEq,
        Prod.mk.injEq, true_and] at hput
      constructor
      · rw [← hput]
        simp
      · intro q hq
        rw [← hput]
        simp [hq]

/-- A `get` whose read succeeds returns exactly the filesystem's contents
at the derived path, and the unchanged filesystem. -/
theorem get_eq_of_read_ok (io : IoOps) (c : SimpleFileCache) (fs : FS)
    (k : String) (hread : io.readFails (filePathStr c.cache_folder k) = false) :
    SimpleFileCache.get stdPathOps io c fs k =
      some (Except.ok (fs (filePathStr c.cache_folder k)), fs) := by
  simp [SimpleFileCache.get, file_path_std, read_as_vec_if_exists, hread]

/-- A single operation never changes the cache component of the world. -/
theorem applyOp_fst (po : PathOps) (io : IoOps) (w : SimpleFileCache × FS)
    (op : CacheOp) : (applyOp po io w op).1 = w.1 := by
  cases op with
  | opFilePath k => rfl
  | opPut k d =>
    simp only [applyOp]
    split <;> rfl
  | opGet k =>
    simp only [applyOp]
    split <;> rfl

/-! ## The claims -/

/-- **C1.** Put/get round trip: on a cache whose root holds no file for
`k`, `get k` returns the successful absent result; after `put k d`
succeeds, `get k` returns present with bytes exactly `d`. -/
theorem put_get_round_trip (io : IoOps) (c : SimpleFileCache) (fs fs2 : FS)
    (k : String) (d : List Nat)
    (hread : io.readFails (filePathStr c.cache_folder k) = false)
    (habsent : fs (filePathStr c.cache_folder k) = none)
    (hput : SimpleFileCache.put stdPathOps io c fs k d =
      some (Except.ok (), fs2)) :
    SimpleFileCache.get stdPathOps io c fs k = some (Except.ok none, fs) ∧
    SimpleFileCache.get stdPathOps io c fs2 k =
      some (Except.ok (some d), fs2) := by
  obtain ⟨hstore, -⟩ := put_ok_update io c fs fs2 k d hput
  constructor
  · rw [get_eq_of_read_ok io c fs k hread, habsent]
  · rw [get_eq_of_read_ok io c fs2 k hread, hstore]

/-- Concrete instantiation of C1 (`put_get_round_trip`): key `"key"`,
payload `[1]`, empty root. -/
theorem put_get_round_trip_witness :
    noFailIo.readFails (filePathStr "/cache/folder/" "key") = false ∧
    emptyFs (filePathStr "/cache/folder/" "key") = none ∧
    SimpleFileCache.put stdPathOps noFailIo ⟨"/cache/folder/"⟩ emptyFs "key"
      [1] = some (Except.ok (), fsA) ∧
    (SimpleFileCache.get stdPathOps noFailIo ⟨"/cache/folder/"⟩ emptyFs
        "key" = some (Except.ok none, emptyFs) ∧
      SimpleFileCache.get stdPathOps noFailIo ⟨"/cache/folder/"⟩ fsA "key" =
        some (Except.ok (some [1]), fsA)) := by
  have hput : SimpleFileCache.put stdPathOps noFailIo ⟨"/cache/folder/"⟩
      emptyFs "key" [1] = some (Except.ok (), fsA) := by
    rw [put_eq_cases]
    rfl
  exact ⟨rfl, rfl, hput,
    put_get_round_trip noFailIo ⟨"/cache/folder/"⟩ emptyFs fsA "key" [1]
      rfl rfl hput⟩

set_option maxRecDepth 1000000 in
/-- **C2.** Key-to-path derivation: for every root and key, the derived
path is the root followed by `"<first 4 hex chars>/<remaining 60>.cache"`
of the 64-character lowercase hex SHA-256 digest of the key's UTF-8 bytes;
concretely, key `"Hello, World!"` under root `"/cache/folder/"` derives
exactly the documented path. -/
theorem file_path_format :
    (∀ root k : String,
      (hexLower (sha256 (utf8Bytes k))).length = 64 ∧
      SimpleFileCache.file_path stdPathOps ⟨root⟩ k =
        some (root ++ ((hexLower (sha256 (utf8Bytes k))).take 4 ++ "/" ++
          (hexLower (sha256 (utf8Bytes k))).drop 4 ++ ".cache"))) ∧
    SimpleFileCache.file_path stdPathOps ⟨"/cache/folder/"⟩ "Hello, World!" =
      some ("/cache/folder/" ++
        "dffd/6021bb2bd5b0af676290809ec3a53191dd81c7f70a4b28688a362182986f.cache") := by
  constructor
  · intro root k
    refine ⟨hexDigest_length k, ?_⟩
    rw [file_path_std]
    simp [filePathStr]
  · rw [file_path_std]
    decide

/-- **C3.** Overwrite: after `put k d1` and then `put k d2` both succeed,
`get k` returns exactly `d2`, never `d1`. -/
theorem put_put_get_overwrite (io : IoOps) (c : SimpleFileCache)
    (fs fs1 fs2 : FS) (k : String) (d1 d2 : List Nat)
    (h1 : SimpleFileCache.put stdPathOps io c fs k d1 =
      some (Except.ok (), fs1))
    (h2 : SimpleFileCache.put stdPathOps io c fs1 k d2 =
      some (Except.ok (), fs2))
    (hread : io.readFails (filePathStr c.cache_folder k) = false) :
    SimpleFileCache.get stdPathOps io c fs2 k =
      some (Except.ok (some d2), fs2) ∧
    (d1 ≠ d2 → SimpleFileCache.get stdPathOps io c fs2 k ≠
      some (Except.ok (some d1), fs2)) := by
  obtain ⟨hstore, -⟩ := put_ok_update io c fs1 fs2 k d2 h2
  have hget : SimpleFileCache.get stdPathOps io c fs2 k =
      some (Except.ok (some d2), fs2) := by
    rw [get_eq_of_read_ok io c fs2 k hread, hstore]
  refine ⟨hget, fun hne hcon => hne ?_⟩
  rw [hget] at hcon
  simp only [Option.some.injEq, Prod.mk.injEq, Except.ok.injEq,
    and_true] at hcon
  exact hcon.symm

/-- Concrete instantiation of C3 (`put_put_get_overwrite`): `[1]` then
`[2]` under key `"key"`. -/
theorem put_put_get_overwrite_witness :
    SimpleFileCache.put stdPathOps noFailIo ⟨"/cache/folder/"⟩ emptyFs "key"
      [1] = some (Except.ok (), fsA) ∧
    SimpleFileCache.put stdPathOps noFailIo ⟨"/cache/folder/"⟩ fsA "key"
      [2] = some (Except.ok (), fsB) ∧
    (SimpleFileCache.get stdPathOps noFailIo ⟨"/cache/folder/"⟩ fsB "key" =
        some (Except.ok (some [2]), fsB) ∧
      ([1] ≠ ([2] : List Nat) →
        SimpleFileCache.get stdPathOps noFailIo ⟨"/cache/folder/"⟩ fsB
          "key" ≠ some (Except.ok (some [1]), fsB))) := by
  have h1 : SimpleFileCache.put stdPathOps noFailIo ⟨"/cache/folder/"⟩
      emptyFs "key" [1] = some (Except.ok (), fsA) := by
    rw [put_eq_cases]
    rfl
  have h2 : SimpleFileCache.put stdPathOps noFailIo ⟨"/cache/folder/"⟩
      fsA "key" [2] = some (Except.ok (), fsB) := by
    rw [put_eq_cases]
    rfl
  exact ⟨h1, h2,
    put_put_get_overwrite noFailIo ⟨"/cache/folder/"⟩ emptyFs fsA fsB "key"
      [1] [2] h1 h2 rfl⟩

/-- **C4.** Absence is not an error: `get` on a key with no file at its
derived path returns the successful absent result (`Ok(None)`), never a
value on the error channel. -/
theorem get_absent_is_ok (io : IoOps) (c : SimpleFileCache) (fs : FS)
    (k : String)
    (hread : io.readFails (filePathStr c.cache_folder k) = false)
    (habsent : fs (filePathStr c.cache_folder k) = none) :
    SimpleFileCache.get stdPathOps io c fs k = some (Except.ok none, fs) := by
  rw [get_eq_of_read_ok io c fs k hread, habsent]

/-- Concrete instantiation of C4 (`get_absent_is_ok`): a never-written
key on the empty filesystem. -/
theorem get_absent_is_ok_witness :
    noFailIo.readFails (filePathStr "/cache/folder/" "nokey") = false ∧
    emptyFs (filePathStr "/cache/folder/" "nokey") = none ∧
    SimpleFileCache.get stdPathOps noFailIo ⟨"/cache/folder/"⟩ emptyFs
      "nokey" = some (Except.ok none, emptyFs) :=
  ⟨rfl, rfl, get_absent_is_ok noFailIo ⟨"/cache/folder/"⟩ emptyFs "nokey"
    rfl rfl⟩

/-- **C5.** Determinism of path derivation: the derived path is a pure
function of the root and the key's textual representation — equal roots
and equal key texts give identical results, on any collaborator. -/
theorem file_path_deterministic (po : PathOps) (c c2 : SimpleFileCache)
    (k k2 : String) (hroot : c.cache_folder = c2.cache_folder)
    (hkey : k = k2) :
    SimpleFileCache.file_path po c k = SimpleFileCache.file_path po c2 k2 := by
  subst hkey
  cases c with
  | mk r =>
    cases c2 with
    | mk r2 =>
      have h : r = r2 := hroot
      subst h
      rfl

/-- Concrete instantiation of C5 (`file_path_deterministic`): the same
call twice yields the identical result. -/
theorem file_path_deterministic_witness :
    (SimpleFileCache.mk "/cache/folder/").cache_folder =
      (SimpleFileCache.mk "/cache/folder/").cache_folder ∧
    ("key" : String) = "key" ∧
    SimpleFileCache.file_path stdPathOps ⟨"/cache/folder/"⟩ "key" =
      SimpleFileCache.file_path stdPathOps ⟨"/cache/folder/"⟩ "key" :=
  ⟨rfl, rfl, file_path_deterministic stdPathOps ⟨"/cache/folder/"⟩
    ⟨"/cache/folder/"⟩ "key" "key" rfl rfl⟩

/-- **C6 (amended).** Derivation failure panics instead of returning an
error: when the hex-encoding step fails, or the composed cache path cannot
be coerced to a file path, `file_path` panics (the `unwrap`s), and `put`
and `get` propagate that panic; no derivation error value is returned to
the caller on the `Result` channel. -/
theorem file_path_failure_panics (po : PathOps) (io : IoOps)
    (c : SimpleFileCache) (fs : FS) (k : String) (d : List Nat)
    (h : po.encodeAsString (sha256 (utf8Bytes k)) = none ∨
      ∃ hash, po.encodeAsString (sha256 (utf8Bytes k)) = some hash ∧
        po.toFile (c.cache_folder ++
          (hash.take 4 ++ "/" ++ hash.drop 4 ++ ".cache")) = none) :
    SimpleFileCache.file_path po c k = none ∧
    SimpleFileCache.put po io c fs k d = none ∧
    SimpleFileCache.get po io c fs k = none := by
  have hfp : SimpleFileCache.file_path po c k = none := by
    rw [file_path_eq]
    rcases h with h | ⟨hash, h1, h2⟩
    · rw [h]
      rfl
    · rw [h1, Option.some_bind]
      exact h2
  exact ⟨hfp, by simp [SimpleFileCache.put, hfp],
    by simp [SimpleFileCache.get, hfp]⟩

/-- C6 as stated is false of the code: with a collaborator whose hex
encoder fails on key `"key"`, `put` panics (`none`) — in particular no
derivation error is returned to the caller. -/
theorem file_path_panics_counterexample :
    badPathOps.encodeAsString (sha256 (utf8Bytes "key")) = none ∧
    SimpleFileCache.put badPathOps noFailIo ⟨"/cache/folder/"⟩ emptyFs "key"
      [1] = none ∧
    ¬ ∃ e fs2,
      SimpleFileCache.put badPathOps noFailIo ⟨"/cache/folder/"⟩ emptyFs
        "key" [1] = some (Except.error e, fs2) := by
  refine ⟨rfl, rfl, ?_⟩
  rintro ⟨e, fs2, hcon⟩
  rw [show SimpleFileCache.put badPathOps noFailIo ⟨"/cache/folder/"⟩
    emptyFs "key" [1] = none from rfl] at hcon
  exact Option.noConfusion hcon

/-- Concrete instantiation of the amended C6
(`file_path_failure_panics`): the failing hex encoder. -/
theorem file_path_failure_panics_witness :
    (badPathOps.encodeAsString (sha256 (utf8Bytes "key2")) = none ∨
      ∃ hash, badPathOps.encodeAsString (sha256 (utf8Bytes "key2")) =
          some hash ∧
        badPathOps.toFile
          ((SimpleFileCache.mk "/cache/folder/").cache_folder ++
            (hash.take 4 ++ "/" ++ hash.drop 4 ++ ".cache")) = none) ∧
    (SimpleFileCache.file_path badPathOps ⟨"/cache/folder/"⟩ "key2" = none ∧
      SimpleFileCache.put badPathOps noFailIo ⟨"/cache/folder/"⟩ emptyFs
        "key2" [] = none ∧
      SimpleFileCache.get badPathOps noFailIo ⟨"/cache/folder/"⟩ emptyFs
        "key2" = none) :=
  ⟨Or.inl rfl, file_path_failure_panics badPathOps noFailIo
    ⟨"/cache/folder/"⟩ emptyFs "key2" [] (Or.inl rfl)⟩

/-- **C7.** Put is delete-then-write: `put` fails with the deletion's I/O
error and an untouched filesystem when the deletion fails (the write is
not attempted); fails with the write's I/O error, the prior file already
deleted, when only the write fails; and on success stores exactly the
data at the derived path — absence of a prior file is never an error. -/
theorem put_delete_then_write (io : IoOps) (c : SimpleFileCache) (fs : FS)
    (k : String) (d : List Nat) :
    SimpleFileCache.put stdPathOps io c fs k d =
      some (if io.deleteFails (filePathStr c.cache_folder k) then
          (Except.error (FsError.ioError (filePathStr c.cache_folder k)), fs)
        else if io.writeFails (filePathStr c.cache_folder k) then
          (Except.error (FsError.ioError (filePathStr c.cache_folder k)),
            fun q => if q = filePathStr c.cache_folder k then none else fs q)
        else (Except.ok (),
            fun q => if q = filePathStr c.cache_folder k then some d
              else fs q)) :=
  put_eq_cases io c fs k d

/-- **C8.** Key identity is textual identity: byte-identical key texts
derive identical paths; distinct digests (collision-freedom) give
distinct paths; and `get` on one key never sees data `put` under a key
with a different (non-colliding) textual representation. -/
theorem key_textual_identity :
    (∀ (po : PathOps) (c : SimpleFileCache) (k1 k2 : String), k1 = k2 →
      SimpleFileCache.file_path po c k1 = SimpleFileCache.file_path po c k2) ∧
    (∀ root k1 k2 : String,
      sha256 (utf8Bytes k1) ≠ sha256 (utf8Bytes k2) →
      filePathStr root k1 ≠ filePathStr root k2) ∧
    (∀ (io : IoOps) (c : SimpleFileCache) (fs fs2 : FS) (k1 k2 : String)
      (d : List Nat),
      sha256 (utf8Bytes k1) ≠ sha256 (utf8Bytes k2) →
      io.readFails (filePathStr c.cache_folder k1) = false →
      fs (filePathStr c.cache_folder k1) = none →
      SimpleFileCache.put stdPathOps io c fs k2 d =
        some (Except.ok (), fs2) →
      SimpleFileCache.get stdPathOps io c fs2 k1 =
        some (Except.ok none, fs2)) := by
  refine ⟨fun po c k1 k2 h => by rw [h],
    fun root k1 k2 h => filePathStr_inj root k1 k2 h, ?_⟩
  intro io c fs fs2 k1 k2 d hdig hread habsent hput
  obtain ⟨-, hframe⟩ := put_ok_update io c fs fs2 k2 d hput
  have hne : filePathStr c.cache_folder k1 ≠ filePathStr c.cache_folder k2 :=
    filePathStr_inj c.cache_folder k1 k2 hdig
  have h1 : fs2 (filePathStr c.cache_folder k1) = none := by
    rw [hframe _ hne]
    exact habsent
  rw [get_eq_of_read_ok io c fs2 k1 hread, h1]

set_option maxRecDepth 1000000 in
/-- Concrete instantiation of C8 (`key_textual_identity`): keys `"a"` and
`"b"` have distinct digests, distinct paths, and do not alias. -/
theorem key_textual_identity_witness :
    sha256 (utf8Bytes "a") ≠ sha256 (utf8Bytes "b") ∧
    filePathStr "/cache/folder/" "a" ≠ filePathStr "/cache/folder/" "b" ∧
    SimpleFileCache.get stdPathOps noFailIo ⟨"/cache/folder/"⟩ fsOther "a" =
      some (Except.ok none, fsOther) := by
  have hdig : sha256 (utf8Bytes "a") ≠ sha256 (utf8Bytes "b") := by decide
  have hput : SimpleFileCache.put stdPathOps noFailIo ⟨"/cache/folder/"⟩
      emptyFs "b" [7] = some (Except.ok (), fsOther) := by
    rw [put_eq_cases]
    rfl
  exact ⟨hdig, key_textual_identity.2.1 "/cache/folder/" "a" "b" hdig,
    key_textual_identity.2.2 noFailIo ⟨"/cache/folder/"⟩ emptyFs fsOther
      "a" "b" [7] hdig rfl rfl hput⟩

/-- **C9.** Root immutability: over every sequence of `filePath`, `put`
and `get` operations, the cache component of the world — in particular
the stored root folder — is unchanged; only constructing a new cache
value changes the storage location. -/
theorem root_immutable (po : PathOps) (io : IoOps)
    (w : SimpleFileCache × FS) (ops : List CacheOp) :
    (runOps po io w ops).1 = w.1 := by
  induction ops generalizing w with
  | nil => rfl
  | cons op rest ih =>
    simp only [runOps, List.foldl_cons]
    exact (ih (applyOp po io w op)).trans (applyOp_fst po io w op)

/-- **C10.** Get is read-only: whenever `get` returns (absent, present or
error), the filesystem after the call is exactly the filesystem before
it. -/
theorem get_read_only (po : PathOps) (io : IoOps) (c : SimpleFileCache)
    (fs : FS) (k : String) (r : Except FsError (Option (List Nat)))
    (fs2 : FS)
    (h : SimpleFileCache.get po io c fs k = some (r, fs2)) : fs2 = fs := by
  simp only [SimpleFileCache.get] at h
  cases hfp : SimpleFileCache.file_path po c k with
  | none =>
    rw [hfp] at h
    simp at h
  | some p =>
    rw [hfp] at h
    simp only [Option.map_some', Option.some.injEq] at h
    have h2 := congrArg Prod.snd h
    rw [read_snd] at h2
    exact h2.symm

/-- Concrete instantiation of C10 (`get_read_only`): a successful absent
`get` leaves the empty filesystem unchanged. -/
theorem get_read_only_witness :
    SimpleFileCache.get stdPathOps noFailIo ⟨"/cache/folder/"⟩ emptyFs
      "key" = some (Except.ok none, emptyFs) ∧ emptyFs = emptyFs := by
  have h : SimpleFileCache.get stdPathOps noFailIo ⟨"/cache/folder/"⟩
      emptyFs "key" = some (Except.ok none, emptyFs) := by
    rw [get_eq_of_read_ok noFailIo ⟨"/cache/folder/"⟩ emptyFs "key" rfl]
    rfl
  exact ⟨h, get_read_only stdPathOps noFailIo ⟨"/cache/folder/"⟩ emptyFs
    "key" (Except.ok none) emptyFs h⟩
